import Mathlib

/-!
Verification of the Klondike solitaire game-state engine found in
src/pages/game/Game.tsx (the second, full `Game` component of that file,
lines 624-1468, which is the one the application exports).  The engine's
data model and every operation the claims mention are embedded below as
executable Lean definitions translated directly from the TypeScript
source; theorems about those definitions settle the claims.

Modelling conventions:
  * JavaScript arrays become `List`; `arr[arr.length-1]` becomes
    `List.getLast?`; `arr.slice(0,-1)` becomes `List.dropLast`;
    `arr.slice(0,-k)` becomes `sliceDropLast` below (note JS `slice(0,-0)`
    is `slice(0,0)` = the empty array, which `sliceDropLast` reproduces);
    `arr.slice(-10)` becomes dropping all but the last 10.
  * The string pile identifiers `stock` / `waste` / `foundation-i` /
    `tableau-i` become the tagged type `Pile`; the source only ever
    inspects them through `===`/`startsWith` plus `parseInt`, which the
    tag captures exactly.
  * `JSON.parse(JSON.stringify(state))` (the deep copy in
    `saveGameState`) is the identity on values in a pure embedding.
  * React `useState` state (gameState, gameHistory, selectedCard,
    draggedCard) is gathered into the `Engine` structure, and each event
    handler becomes a function `Engine → Engine`; the source processes
    one handler at a time, synchronously.
  * `card.rank !== prevCard.rank - 1` is JS number arithmetic, so the
    comparison is taken over `Int` (relevant only off the 1..13 range).
-/

/-- The four suits, as in `type Suit` of the source. -/
inductive Suit where
  | hearts | diamonds | clubs | spades
deriving DecidableEq

/-- The name a suit contributes to a card id, as in the template string
of `createDeck`. -/
def Suit.str : Suit → String
  | .hearts => "hearts"
  | .diamonds => "diamonds"
  | .clubs => "clubs"
  | .spades => "spades"

/-- `interface Card` of the source: suit, rank (1..13 in play), face
orientation and the derived id string. -/
structure Card where
  suit : Suit
  rank : Nat
  faceUp : Bool
  id : String
deriving DecidableEq

/-- Builds a card the way `createDeck` does. -/
def mkCard (s : Suit) (r : Nat) (u : Bool) : Card :=
  { suit := s, rank := r, faceUp := u, id := s.str ++ "-" ++ toString r }

/-- `interface GameState` of the source: stock, waste, the four
foundations and the seven tableau columns, top of every pile last. -/
structure GameState where
  stock : List Card
  waste : List Card
  foundations : List (List Card)
  tableau : List (List Card)
deriving DecidableEq

/-- The pile identifier strings (`stock`, `waste`, `foundation-i`,
`tableau-i`) as a tagged type. -/
inductive Pile where
  | stock
  | waste
  | foundation (i : Nat)
  | tableau (i : Nat)
deriving DecidableEq

/-- The `{card, source, index?}` selection / drag records of the source. -/
structure Intent where
  card : Card
  source : Pile
  index : Option Nat
deriving DecidableEq

/-- The React state the engine's handlers read and write: the live
`gameState`, the `gameHistory` snapshot stack and the two ephemeral
pick-then-place intents. -/
structure Engine where
  game : GameState
  history : List GameState
  selected : Option Intent
  dragged : Option Intent
deriving DecidableEq

/-- `card.suit === 'hearts' || card.suit === 'diamonds'`. -/
def isRed (s : Suit) : Bool := s = Suit.hearts || s = Suit.diamonds

/-- `canPlaceOnFoundation(card, foundationIndex)` from the source: an
empty foundation accepts exactly rank 1; otherwise the top card must
share the suit and be exactly one rank lower. -/
def canPlaceOnFoundation (g : GameState) (card : Card) (foundationIndex : Nat) : Bool :=
  match (g.foundations.getD foundationIndex []).getLast? with
  | none => card.rank = 1
  | some topCard => card.suit = topCard.suit && card.rank = topCard.rank + 1

/-- `canPlaceOnTableau(card, columnIndex)` from the source: an empty
column accepts exactly rank 13; otherwise colors must differ and the
card must be exactly one rank below the column's top. -/
def canPlaceOnTableau (g : GameState) (card : Card) (columnIndex : Nat) : Bool :=
  match (g.tableau.getD columnIndex []).getLast? with
  | none => card.rank = 13
  | some topCard =>
      isRed card.suit != isRed topCard.suit && (card.rank : Int) = (topCard.rank : Int) - 1

/-- The loop-continuation test of `getMoveableSequence`: the source
breaks when `isRed === prevIsRed || card.rank !== prevCard.rank - 1`,
so it continues exactly when colors alternate and the rank drops by
one. -/
def stepOk (prevCard card : Card) : Bool :=
  isRed card.suit != isRed prevCard.suit && (card.rank : Int) = (prevCard.rank : Int) - 1

/-- The tail of `getMoveableSequence`'s loop once a first card has been
accepted: keep taking cards while each is face-up and `stepOk` holds
against the previous accepted card. -/
def chainFrom (prevCard : Card) : List Card → List Card
  | [] => []
  | c :: rest => if c.faceUp && stepOk prevCard c then c :: chainFrom c rest else []

/-- The body of `getMoveableSequence` applied to the part of the column
from `cardIndex` on: the first card only needs to be face-up, each
later card additionally passes `stepOk`. -/
def moveableSeq : List Card → List Card
  | [] => []
  | c :: rest => if c.faceUp then c :: chainFrom c rest else []

/-- `getMoveableSequence(columnIndex, cardIndex)` from the source. -/
def getMoveableSequence (g : GameState) (columnIndex cardIndex : Nat) : List Card :=
  moveableSeq ((g.tableau.getD columnIndex []).drop cardIndex)

/-- JS `arr.slice(0, -k)` for a Nat `k`: drops the trailing `k`
elements, except that `k = 0` gives `slice(0, -0) = slice(0, 0) = []`. -/
def sliceDropLast (l : List Card) (k : Nat) : List Card :=
  if k = 0 then [] else l.take (l.length - k)

/-- The auto-reveal step of `moveCard`: if the column's new top card
exists and is face-down, flip it face-up. -/
def flipTop (col : List Card) : List Card :=
  match col.getLast? with
  | none => col
  | some c => if c.faceUp then col else col.dropLast ++ [{ c with faceUp := true }]

/-- The `// Remove cards from source` block of `moveCard`: waste and
foundation sources lose exactly their last card, a tableau source loses
its trailing `k` cards (`k` = the length of `cardsToMove`) and then
auto-reveals; any other source (only `stock` exists) falls through all
branches and loses nothing. -/
def removeFromSource (src : Pile) (k : Nat) (g : GameState) : GameState :=
  match src with
  | .waste => { g with waste := g.waste.dropLast }
  | .tableau i =>
      { g with tableau := g.tableau.set i (flipTop (sliceDropLast (g.tableau.getD i []) k)) }
  | .foundation i =>
      { g with foundations := g.foundations.set i ((g.foundations.getD i []).dropLast) }
  | .stock => g

/-- The `// Add cards to destination` block of `moveCard`: a foundation
or tableau destination receives `cardsToMove` appended in order; any
other destination receives nothing. -/
def addToDest (dest : Pile) (cards : List Card) (g : GameState) : GameState :=
  match dest with
  | .foundation i =>
      { g with foundations := g.foundations.set i ((g.foundations.getD i []) ++ cards) }
  | .tableau i =>
      { g with tableau := g.tableau.set i ((g.tableau.getD i []) ++ cards) }
  | _ => g

/-- The `setGameState` updater of `moveCard(from, to, sequence?)`:
`cardsToMove = sequence || [from.card]`, then removal, then addition. -/
def moveCardGame (f : Intent) (dest : Pile) (seq : Option (List Card)) (g : GameState) : GameState :=
  addToDest dest (seq.getD [f.card]) (removeFromSource f.source (seq.getD [f.card]).length g)

/-- `saveGameState(state)`: append a deep copy of the state and keep
only the last 10 entries (`[...prev, copy].slice(-10)`). -/
def saveGameState (state : GameState) (h : List GameState) : List GameState :=
  (h ++ [state]).drop ((h ++ [state]).length - 10)

/-- `moveCard` as the source runs it: snapshot the current state into
history first, then apply the state updater. -/
def moveCardE (f : Intent) (dest : Pile) (seq : Option (List Card)) (e : Engine) : Engine :=
  { e with game := moveCardGame f dest seq e.game,
           history := saveGameState e.game e.history }

/-- `handleUndo`: with a non-empty history, restore the most recent
snapshot, pop it, and clear the selection; otherwise do nothing. -/
def handleUndo (e : Engine) : Engine :=
  match e.history.getLast? with
  | none => e
  | some prev => { e with game := prev, history := e.history.dropLast, selected := none }

/-- The `setGameState` updater of `handleStockClick`: an empty stock is
refilled with the reversed waste, every card flipped face-down, and the
waste emptied; otherwise the stock's top card is popped, flipped
face-up, and pushed onto the waste. -/
def drawStep (g : GameState) : GameState :=
  match g.stock.getLast? with
  | none => { g with stock := g.waste.reverse.map (fun c => { c with faceUp := false }),
                     waste := [] }
  | some c => { g with stock := g.stock.dropLast,
                       waste := g.waste ++ [{ c with faceUp := true }] }

/-- `handleStockClick` as the source runs it: snapshot, then draw or
recycle. -/
def handleStockClick (e : Engine) : Engine :=
  { e with game := drawStep e.game, history := saveGameState e.game e.history }

/-- The sequence the click / drop handlers pass to `moveCard` when the
moving intent sits in a tableau column and carries an index
(`selectedCard.source.startsWith('tableau-') && selectedCard.index !==
undefined`); any other intent passes no sequence. -/
def clickSeq (g : GameState) (sel : Intent) : Option (List Card) :=
  match sel.source, sel.index with
  | Pile.tableau sourceCol, some idx => some (getMoveableSequence g sourceCol idx)
  | _, _ => none

/-- The in-place flip of the flip-tableau-top branch of
`handleCardClick`: the column's last card is set face-up. -/
def setLastFaceUp (col : List Card) : List Card :=
  match col.getLast? with
  | none => col
  | some c => col.dropLast ++ [{ c with faceUp := true }]

/-- `handleCardClick(card, source, index?)`.  A face-down card flips in
place when it is the top of its tableau column (the source compares by
reference; in a legal state the column top is the clicked card itself),
with no history entry.  A face-up click with a pending selection
attempts the placement — executed through `moveCard` only when the rule
predicate accepts — and always clears the selection; with no pending
selection it records one. -/
def handleCardClick (card : Card) (source : Pile) (index : Option Nat) (e : Engine) : Engine :=
  if card.faceUp = false then
    match source with
    | Pile.tableau colIndex =>
        if (e.game.tableau.getD colIndex []).getLast? = some card then
          { e with game := { e.game with
              tableau := e.game.tableau.set colIndex
                (setLastFaceUp (e.game.tableau.getD colIndex [])) } }
        else e
    | _ => e
  else
    match e.selected with
    | some sel =>
        let e2 :=
          match source with
          | Pile.foundation foundationIndex =>
              if canPlaceOnFoundation e.game sel.card foundationIndex then
                moveCardE sel (Pile.foundation foundationIndex) none e
              else e
          | Pile.tableau columnIndex =>
              if canPlaceOnTableau e.game sel.card columnIndex then
                moveCardE sel (Pile.tableau columnIndex) (clickSeq e.game sel) e
              else e
          | _ => e
        { e2 with selected := none }
    | none => { e with selected := some ⟨card, source, index⟩ }

/-- `handleDrop(e, target)`: with no dragged intent, nothing happens;
otherwise the placement is attempted exactly as in `handleCardClick`
and the dragged intent is cleared. -/
def handleDrop (target : Pile) (e : Engine) : Engine :=
  match e.dragged with
  | none => e
  | some d =>
      let e2 :=
        match target with
        | Pile.foundation foundationIndex =>
            if canPlaceOnFoundation e.game d.card foundationIndex then
              moveCardE d (Pile.foundation foundationIndex) none e
            else e
        | Pile.tableau columnIndex =>
            if canPlaceOnTableau e.game d.card columnIndex then
              moveCardE d (Pile.tableau columnIndex) (clickSeq e.game d) e
            else e
        | _ => e
      { e2 with dragged := none }

/-- `autoMoveToFoundation(card, source, index?)`: try foundations 0..3
in order and run `moveCard` on the first whose predicate accepts. -/
def autoMoveToFoundation (card : Card) (source : Pile) (index : Option Nat) (e : Engine) : Engine :=
  match (List.range 4).find? (fun i => canPlaceOnFoundation e.game card i) with
  | some i => moveCardE ⟨card, source, index⟩ (Pile.foundation i) none e
  | none => e

/-- `handleDoubleClick`: auto-move only a face-up card. -/
def handleDoubleClick (card : Card) (source : Pile) (index : Option Nat) (e : Engine) : Engine :=
  if card.faceUp then autoMoveToFoundation card source index e else e

/-- Column `c`'s first deck index in `dealCards`' double loop. -/
def triIndex (c : Nat) : Nat := c * (c + 1) / 2

/-- Column `c` as `dealCards` fills it: the next `c + 1` deck cards,
only the row-`c` (last) one face-up. -/
def dealColumn (deck : List Card) (c : Nat) : List Card :=
  (((deck.drop (triIndex c)).take (c + 1)).enum).map
    (fun p => { p.2 with faceUp := p.1 == c })

/-- The GameState `dealCards` installs: triangular tableau from the
first 28 deck cards, the remaining cards as stock, empty waste and
foundations. -/
def dealCardsG (deck : List Card) : GameState :=
  { stock := deck.drop 28, waste := [], foundations := [[], [], [], []],
    tableau := (List.range 7).map (dealColumn deck) }

/-- `dealCards` as the source runs it: it only calls `setGameState`,
touching neither the history nor the intents (the win-message New Game
button invokes exactly this). -/
def dealCardsE (deck : List Card) (e : Engine) : Engine :=
  { e with game := dealCardsG deck }

/-- `confirmRestart`: deal, then clear the history and the selection. -/
def confirmRestart (deck : List Card) (e : Engine) : Engine :=
  { dealCardsE deck e with history := [], selected := none }

/-- The 52 cards in the order `createDeck` builds them before the
shuffle: suits hearts, diamonds, clubs, spades, ranks 1..13 within each. -/
def orderedDeck : List Card :=
  (([Suit.hearts, Suit.diamonds, Suit.clubs, Suit.spades].map
    (fun s => (List.range 13).map (fun r => mkCard s (r + 1) false)))).flatten

/-- `isGameWon`: every foundation holds exactly 13 cards. -/
def isGameWon (g : GameState) : Bool :=
  g.foundations.all (fun f => f.length = 13)

/-! ## Rule-engine claims -/

/-- Claim C4: `canPlaceOnFoundation(card, i)` is true iff the foundation
pile is empty and the card is an ace (rank 1), or the pile's top card
shares the card's suit and the card's rank is the top's rank plus one;
on an empty foundation, acceptance is exactly `rank = 1` (an ace
succeeds, a two fails). -/
theorem canPlaceOnFoundation_spec (g : GameState) (card : Card) (i : Nat) :
    (canPlaceOnFoundation g card i = true ↔
      ((g.foundations.getD i [] = [] ∧ card.rank = 1) ∨
       (∃ topCard, (g.foundations.getD i []).getLast? = some topCard ∧
         card.suit = topCard.suit ∧ card.rank = topCard.rank + 1))) ∧
    (g.foundations.getD i [] = [] →
      (canPlaceOnFoundation g card i = true ↔ card.rank = 1)) := by
  constructor
  · unfold canPlaceOnFoundation
    generalize g.foundations.getD i [] = F
    cases h : F.getLast? with
    | none =>
        rw [List.getLast?_eq_none_iff] at h
        subst h
        simp
    | some topCard =>
        have hne : F ≠ [] := by
          rintro rfl
          simp at h
        simp [h, hne]
  · intro h
    unfold canPlaceOnFoundation
    rw [h]
    simp

/-- Claim C5: `canPlaceOnTableau(card, ci)` is true iff the column is
empty and the card is a king (rank 13), or the column's top card is of
the opposite color class (hearts/diamonds red, clubs/spades black) and
the card's rank is exactly one below the top's; on an empty column,
acceptance is exactly `rank = 13` (a king succeeds, a queen fails). -/
theorem canPlaceOnTableau_spec (g : GameState) (card : Card) (ci : Nat) :
    (canPlaceOnTableau g card ci = true ↔
      ((g.tableau.getD ci [] = [] ∧ card.rank = 13) ∨
       (∃ topCard, (g.tableau.getD ci []).getLast? = some topCard ∧
         isRed card.suit ≠ isRed topCard.suit ∧ card.rank + 1 = topCard.rank))) ∧
    (g.tableau.getD ci [] = [] →
      (canPlaceOnTableau g card ci = true ↔ card.rank = 13)) := by
  constructor
  · unfold canPlaceOnTableau
    generalize g.tableau.getD ci [] = F
    cases h : F.getLast? with
    | none =>
        rw [List.getLast?_eq_none_iff] at h
        subst h
        simp
    | some topCard =>
        have hne : F ≠ [] := by
          rintro rfl
          simp at h
        have harith : ((card.rank : Int) = (topCard.rank : Int) - 1) ↔
            card.rank + 1 = topCard.rank := by omega
        simp [h, hne, harith]
  · intro h
    unfold canPlaceOnTableau
    rw [h]
    simp

/-! ## Moveable sequences (claim C6) -/

/-- The claim's chain rule against a predecessor `p`: every card is
face-up and each is of the opposite color and exactly one rank lower
than the card before it. -/
def runStep (p : Card) : List Card → Bool
  | [] => true
  | c :: rest => c.faceUp && stepOk p c && runStep c rest

/-- The claim's description of a moveable run: every card face-up, and
each card after the first of alternating color and exactly one rank
lower than its predecessor. -/
def validRun : List Card → Bool
  | [] => true
  | c :: rest => c.faceUp && runStep c rest

theorem chainFrom_take (p : Card) (l : List Card) :
    chainFrom p l = l.take (chainFrom p l).length := by
  induction l generalizing p with
  | nil => rfl
  | cons c rest ih =>
      by_cases hc : (c.faceUp && stepOk p c) = true
      · simp only [chainFrom, hc, if_true, List.length_cons, List.take_succ_cons]
        exact congrArg (c :: ·) (ih c)
      · simp only [chainFrom, hc, if_false]
        rfl

theorem chainFrom_runStep (p : Card) (l : List Card) :
    runStep p (chainFrom p l) = true := by
  induction l generalizing p with
  | nil => rfl
  | cons c rest ih =>
      by_cases hc : (c.faceUp && stepOk p c) = true
      · have h12 := hc
        rw [Bool.and_eq_true] at h12
        simp only [chainFrom, hc, if_true, runStep, Bool.and_eq_true]
        exact ⟨trivial, ih c⟩
      · simp only [chainFrom, hc, if_false]
        rfl

theorem chainFrom_maximal (p : Card) (l : List Card) (j : Nat)
    (hj : j ≤ l.length) (hrun : runStep p (l.take j) = true) :
    j ≤ (chainFrom p l).length := by
  induction l generalizing p j with
  | nil => simpa [chainFrom] using hj
  | cons c rest ih =>
      cases j with
      | zero => exact Nat.zero_le _
      | succ j' =>
          simp only [List.take_succ_cons, runStep, Bool.and_eq_true] at hrun
          obtain ⟨⟨hface, hstep⟩, hrest⟩ := hrun
          have hc : (c.faceUp && stepOk p c) = true := by simp [hface, hstep]
          simp only [chainFrom, hc, if_true, List.length_cons]
          exact Nat.succ_le_succ (ih c j' (by simpa using hj) hrest)

theorem moveableSeq_take (l : List Card) :
    moveableSeq l = l.take (moveableSeq l).length := by
  cases l with
  | nil => rfl
  | cons c rest =>
      by_cases hc : c.faceUp = true
      · simp only [moveableSeq, hc, if_true, List.length_cons, List.take_succ_cons]
        exact congrArg (c :: ·) (chainFrom_take c rest)
      · simp only [moveableSeq, hc, if_false]
        rfl

theorem moveableSeq_valid (l : List Card) : validRun (moveableSeq l) = true := by
  cases l with
  | nil => rfl
  | cons c rest =>
      by_cases hc : c.faceUp = true
      · simp only [moveableSeq, hc, if_true, validRun, Bool.and_eq_true]
        exact ⟨trivial, chainFrom_runStep c rest⟩
      · simp only [moveableSeq, hc, if_false]
        rfl

theorem moveableSeq_maximal (l : List Card) (j : Nat)
    (hj : j ≤ l.length) (hrun : validRun (l.take j) = true) :
    j ≤ (moveableSeq l).length := by
  cases l with
  | nil => simpa [moveableSeq] using hj
  | cons c rest =>
      cases j with
      | zero => exact Nat.zero_le _
      | succ j' =>
          simp only [List.take_succ_cons, validRun, Bool.and_eq_true] at hrun
          obtain ⟨hface, hrest⟩ := hrun
          simp only [moveableSeq, hface, if_true, List.length_cons]
          exact Nat.succ_le_succ (chainFrom_maximal c rest j' (by simpa using hj) hrest)

/-- Claim C6: `getMoveableSequence(ci, si)` returns the longest prefix
of the column's cards from `si` onward that is entirely face-up with
each later card of alternating color and exactly one rank lower than
its predecessor: the result is such a prefix, and any prefix of that
shape is no longer.  When the card at `si` is face-down the result is
empty; when it is face-up but its successor breaks the rule, the result
is exactly that one card. -/
theorem getMoveableSequence_spec (g : GameState) (ci si : Nat) :
    getMoveableSequence g ci si =
      ((g.tableau.getD ci []).drop si).take (getMoveableSequence g ci si).length ∧
    validRun (getMoveableSequence g ci si) = true ∧
    (∀ j, j ≤ ((g.tableau.getD ci []).drop si).length →
      validRun (((g.tableau.getD ci []).drop si).take j) = true →
      j ≤ (getMoveableSequence g ci si).length) ∧
    (∀ c rest, (g.tableau.getD ci []).drop si = c :: rest →
      c.faceUp = false → getMoveableSequence g ci si = []) ∧
    (∀ c c2 rest, (g.tableau.getD ci []).drop si = c :: c2 :: rest →
      c.faceUp = true → (c2.faceUp && stepOk c c2) = false →
      getMoveableSequence g ci si = [c]) := by
  unfold getMoveableSequence
  refine ⟨moveableSeq_take _, moveableSeq_valid _, moveableSeq_maximal _, ?_, ?_⟩
  · intro c rest he hface
    rw [he]
    simp [moveableSeq, hface]
  · intro c c2 rest he hface hbreak
    rw [he]
    simp [moveableSeq, hface, chainFrom, hbreak]

/-! ## History manager (claims C2, C3) -/

theorem saveGameState_length (s : GameState) (h : List GameState) :
    (saveGameState s h).length ≤ 10 := by
  unfold saveGameState
  rw [List.length_drop]
  omega

theorem saveGameState_getLast (s : GameState) (h : List GameState) :
    (saveGameState s h).getLast? = some s := by
  unfold saveGameState
  have hk : (h ++ [s]).length - 10 ≤ h.length := by
    simp
  rw [List.drop_append_of_le_length hk]
  simp

theorem undo_moveCardE (f : Intent) (dest : Pile) (seq : Option (List Card)) (e : Engine) :
    (handleUndo (moveCardE f dest seq e)).game = e.game := by
  have hl := saveGameState_getLast e.game e.history
  simp [moveCardE, handleUndo, hl]

/-- Claim C3: the history is a LIFO buffer of at most 10 snapshots —
every push keeps at most the 10 most recent entries with the pushed
state last, undo on an empty history changes nothing, and undo on a
non-empty history pops exactly the most recent snapshot and makes it
the live state. -/
theorem history_spec (s : GameState) (h : List GameState) (e : Engine) :
    (saveGameState s h).length ≤ 10 ∧
    (saveGameState s h).length = min (h.length + 1) 10 ∧
    (saveGameState s h) <:+ (h ++ [s]) ∧
    (saveGameState s h).getLast? = some s ∧
    (e.history = [] → handleUndo e = e) ∧
    (e.history ≠ [] →
      (handleUndo e).history = e.history.dropLast ∧
      e.history.getLast? = some (handleUndo e).game) := by
  refine ⟨saveGameState_length s h, ?_, List.drop_suffix .., saveGameState_getLast s h, ?_, ?_⟩
  · unfold saveGameState
    rw [List.length_drop]
    simp
    omega
  · intro he
    simp [handleUndo, he]
  · intro he
    rw [← List.getLast?_isSome, Option.isSome_iff_exists] at he
    obtain ⟨prev, hprev⟩ := he
    simp [handleUndo, hprev]

/-- Claim C2: each history-recorded action (a `moveCard` execution, a
non-trivial auto-move to foundation, a stock click) followed by undo
restores the exact prior GameState; the flip-tableau-top branch of
`handleCardClick` pushes no history entry. -/
theorem undo_left_inverse (e : Engine) (f : Intent) (dest : Pile)
    (seq : Option (List Card)) (card : Card) (source : Pile) (index : Option Nat) :
    (handleUndo (moveCardE f dest seq e)).game = e.game ∧
    (handleUndo (handleStockClick e)).game = e.game ∧
    ((List.range 4).find? (fun i => canPlaceOnFoundation e.game card i) ≠ none →
      (handleUndo (autoMoveToFoundation card source index e)).game = e.game) ∧
    (card.faceUp = false → (handleCardClick card source index e).history = e.history) := by
  refine ⟨undo_moveCardE f dest seq e, ?_, ?_, ?_⟩
  · have hl := saveGameState_getLast e.game e.history
    simp [handleStockClick, handleUndo, hl]
  · intro hfind
    unfold autoMoveToFoundation
    cases hf : (List.range 4).find? (fun i => canPlaceOnFoundation e.game card i) with
    | none => exact absurd hf hfind
    | some i => exact undo_moveCardE _ _ _ e
  · intro hface
    unfold handleCardClick
    rw [if_pos hface]
    cases source <;> simp
    split <;> rfl

/-! ## Stock click (claim C7) -/

/-- Claim C7: `handleStockClick` snapshots the prior state into history
and then: with a non-empty stock, pops its top (last) card, sets it
face-up and appends it to the waste, leaving foundations and tableau
unchanged; with an empty stock, installs the reversed waste with every
card face-down as the new stock and empties the waste. -/
theorem handleStockClick_spec (e : Engine) :
    (handleStockClick e).history = saveGameState e.game e.history ∧
    (handleStockClick e).history.getLast? = some e.game ∧
    (∀ s' c, e.game.stock = s' ++ [c] →
      (handleStockClick e).game.stock = s' ∧
      (handleStockClick e).game.waste = e.game.waste ++ [{ c with faceUp := true }] ∧
      (handleStockClick e).game.foundations = e.game.foundations ∧
      (handleStockClick e).game.tableau = e.game.tableau) ∧
    (e.game.stock = [] →
      (handleStockClick e).game.stock =
        e.game.waste.reverse.map (fun c => { c with faceUp := false }) ∧
      (handleStockClick e).game.waste = [] ∧
      (handleStockClick e).game.foundations = e.game.foundations ∧
      (handleStockClick e).game.tableau = e.game.tableau) := by
  refine ⟨rfl, saveGameState_getLast e.game e.history, ?_, ?_⟩
  · intro s' c hs
    simp [handleStockClick, drawStep, hs, List.getLast?_concat, List.dropLast_concat]
  · intro hs
    simp [handleStockClick, drawStep, hs]

/-! ## Rejected placements (claim C8) -/

/-- Claim C8: when the rule predicate refuses a placement, both the
click-to-place path (`handleCardClick` with a pending selection) and
the drag-drop path (`handleDrop` with a dragged intent) leave the
GameState and the history exactly as they were and only clear the
ephemeral intent. -/
theorem rejected_move_spec (e : Engine) (sel d : Intent) (card : Card)
    (index : Option Nat) (fi ci : Nat) :
    (e.selected = some sel → card.faceUp = true →
      canPlaceOnFoundation e.game sel.card fi = false →
      handleCardClick card (Pile.foundation fi) index e = { e with selected := none }) ∧
    (e.selected = some sel → card.faceUp = true →
      canPlaceOnTableau e.game sel.card ci = false →
      handleCardClick card (Pile.tableau ci) index e = { e with selected := none }) ∧
    (e.dragged = some d → canPlaceOnFoundation e.game d.card fi = false →
      handleDrop (Pile.foundation fi) e = { e with dragged := none }) ∧
    (e.dragged = some d → canPlaceOnTableau e.game d.card ci = false →
      handleDrop (Pile.tableau ci) e = { e with dragged := none }) := by
  refine ⟨?_, ?_, ?_, ?_⟩
  · intro hsel hface hcan
    simp [handleCardClick, hsel, hface, hcan]
  · intro hsel hface hcan
    simp [handleCardClick, hsel, hface, hcan]
  · intro hd hcan
    simp [handleDrop, hd, hcan]
  · intro hd hcan
    simp [handleDrop, hd, hcan]

/-! ## Positional removal in moveCard (claim C10) -/

theorem getD_set_self (l : List (List Card)) (i : Nat) (v : List Card)
    (h : i < l.length) : (l.set i v).getD i [] = v := by
  simp [List.getD_eq_getElem?_getD, List.getElem?_set, h]

theorem getD_set_ne (l : List (List Card)) (i j : Nat) (v : List Card)
    (h : i ≠ j) : (l.set i v).getD j [] = l.getD j [] := by
  simp [List.getD_eq_getElem?_getD, List.getElem?_set, h]

theorem sliceDropLast_nil (k : Nat) : sliceDropLast [] k = [] := by
  unfold sliceDropLast
  split <;> simp

theorem getD_set_apply (f : List Card → List Card) (hf : f [] = [])
    (l : List (List Card)) (i : Nat) :
    (l.set i (f (l.getD i []))).getD i [] = f (l.getD i []) := by
  by_cases h : i < l.length
  · exact getD_set_self _ _ _ h
  · rw [List.set_eq_of_length_le (Nat.le_of_not_lt h),
      List.getD_eq_default _ _ (Nat.le_of_not_lt h), hf]

/-- The two of spades, face-up, as in the C10/C1 demonstration. -/
def cSpades2 : Card := mkCard Suit.spades 2 true

/-- The ace of hearts, face-up. -/
def cHeartsA : Card := mkCard Suit.hearts 1 true

/-- The ace of spades, face-up. -/
def cSpadesA : Card := mkCard Suit.spades 1 true

/-- A mid-game position: ace of spades on foundation 0, and column 0
holding the face-up two of spades with the face-up ace of hearts on
top of it (a legal alternating-color stack). -/
def demoState : GameState :=
  { stock := [], waste := [],
    foundations := [[cSpadesA], [], [], []],
    tableau := [[cSpades2, cHeartsA], [], [], [], [], [], []] }

/-- Claim C10: `moveCard` removes cards purely positionally — the
source pile's trailing run of `cardsToMove.length` cards for a tableau
source, exactly the last card for a waste or foundation source — never
consulting `from.card` or `from.index` for the removal, while the
destination receives exactly `cardsToMove`; hence an intent naming a
face-up card outside the trailing run removes different cards than it
appends, as the double-click auto-move of the covered two of spades in
`demoState` shows (the ace of hearts is removed, the two of spades
appended). -/
theorem moveCard_positional (f1 f2 : Intent) (dest : Pile) (l : List Card)
    (seq : Option (List Card)) (s : GameState) (i j : Nat) :
    (f1.source = f2.source →
      moveCardGame f1 dest (some l) s = moveCardGame f2 dest (some l) s) ∧
    (f1.source = Pile.waste →
      (moveCardGame f1 dest seq s).waste = s.waste.dropLast) ∧
    (f1.source = Pile.tableau i → dest ≠ Pile.tableau i →
      (moveCardGame f1 dest seq s).tableau.getD i [] =
        flipTop (sliceDropLast (s.tableau.getD i []) (seq.getD [f1.card]).length)) ∧
    (f1.source = Pile.foundation i → dest ≠ Pile.foundation i →
      (moveCardGame f1 dest seq s).foundations.getD i [] =
        (s.foundations.getD i []).dropLast) ∧
    (dest = Pile.foundation j → f1.source ≠ Pile.foundation j →
      j < s.foundations.length →
      (moveCardGame f1 dest seq s).foundations.getD j [] =
        s.foundations.getD j [] ++ seq.getD [f1.card]) ∧
    (dest = Pile.tableau j → f1.source ≠ Pile.tableau j →
      j < s.tableau.length →
      (moveCardGame f1 dest seq s).tableau.getD j [] =
        s.tableau.getD j [] ++ seq.getD [f1.card]) ∧
    (moveCardGame ⟨cSpades2, Pile.tableau 0, some 0⟩ (Pile.foundation 0) none demoState =
      { stock := [], waste := [],
        foundations := [[cSpadesA, cSpades2], [], [], []],
        tableau := [[cSpades2], [], [], [], [], [], []] }) := by
  obtain ⟨c1, src1, idx1⟩ := f1
  refine ⟨?_, ?_, ?_, ?_, ?_, ?_, ?_⟩
  · intro h
    simp only at h
    simp [moveCardGame, h]
  · intro h
    simp only at h
    subst h
    unfold moveCardGame
    simp only [removeFromSource]
    cases dest <;> simp [addToDest]
  · intro h hne
    simp only at h
    subst h
    unfold moveCardGame
    simp only [removeFromSource]
    have hf : flipTop (sliceDropLast [] ((seq.getD [c1]).length)) = [] := by
      rw [sliceDropLast_nil]
      rfl
    cases dest with
    | stock => simpa [addToDest] using
        getD_set_apply (fun col => flipTop (sliceDropLast col (seq.getD [c1]).length)) hf s.tableau i
    | waste => simpa [addToDest] using
        getD_set_apply (fun col => flipTop (sliceDropLast col (seq.getD [c1]).length)) hf s.tableau i
    | foundation m => simpa [addToDest] using
        getD_set_apply (fun col => flipTop (sliceDropLast col (seq.getD [c1]).length)) hf s.tableau i
    | tableau m =>
        have hmi : m ≠ i := by
          intro hmi
          exact hne (by rw [hmi])
        simp only [addToDest]
        rw [getD_set_ne _ m i _ hmi]
        exact getD_set_apply (fun col => flipTop (sliceDropLast col (seq.getD [c1]).length)) hf s.tableau i
  · intro h hne
    simp only at h
    subst h
    unfold moveCardGame
    simp only [removeFromSource]
    cases dest with
    | stock => simpa [addToDest] using
        getD_set_apply (fun col => col.dropLast) rfl s.foundations i
    | waste => simpa [addToDest] using
        getD_set_apply (fun col => col.dropLast) rfl s.foundations i
    | tableau m => simpa [addToDest] using
        getD_set_apply (fun col => col.dropLast) rfl s.foundations i
    | foundation m =>
        have hmi : m ≠ i := by
          intro hmi
          exact hne (by rw [hmi])
        simp only [addToDest]
        rw [getD_set_ne _ m i _ hmi]
        exact getD_set_apply (fun col => col.dropLast) rfl s.foundations i
  · intro h hsrc hj
    subst h
    unfold moveCardGame
    simp only [addToDest]
    cases src1 with
    | stock =>
        simp only [removeFromSource]
        exact getD_set_self _ _ _ hj
    | waste =>
        simp only [removeFromSource]
        exact getD_set_self _ _ _ hj
    | tableau m =>
        simp only [removeFromSource]
        exact getD_set_self _ _ _ hj
    | foundation m =>
        have hmj : m ≠ j := by
          intro hmj
          exact hsrc (by simp [hmj])
        simp only [removeFromSource]
        rw [getD_set_ne _ m j _ hmj]
        have hlen : (s.foundations.set m ((s.foundations.getD m []).dropLast)).length = s.foundations.length := by simp
        exact getD_set_self _ _ _ (by rw [hlen]; exact hj)
  · intro h hsrc hj
    subst h
    unfold moveCardGame
    simp only [addToDest]
    cases src1 with
    | stock =>
        simp only [removeFromSource]
        exact getD_set_self _ _ _ hj
    | waste =>
        simp only [removeFromSource]
        exact getD_set_self _ _ _ hj
    | foundation m =>
        simp only [removeFromSource]
        exact getD_set_self _ _ _ hj
    | tableau m =>
        have hmj : m ≠ j := by
          intro hmj
          exact hsrc (by simp [hmj])
        simp only [removeFromSource]
        rw [getD_set_ne _ m j _ hmj]
        have hlen : (s.tableau.set m (flipTop (sliceDropLast (s.tableau.getD m []) ((seq.getD [c1]).length)))).length = s.tableau.length := by simp
        exact getD_set_self _ _ _ (by rw [hlen]; exact hj)
  · rfl

/-! ## Dealing a new game (claim C9) -/

theorem deal_tableau_getD (d : List Card) (c : Nat) (hc : c < 7) :
    (dealCardsG d).tableau.getD c [] = dealColumn d c := by
  simp [dealCardsG, List.getD_eq_getElem?_getD, List.getElem?_map, List.getElem?_range, hc]

/-- Claim C9 as amended: `dealCards` always installs a freshly dealt
layout — triangular tableau (column `c` holding `c + 1` cards, only the
last face-up), 24 face-down stock cards, empty waste and foundations —
and `confirmRestart` clears the history, but `dealCards` itself leaves
the history untouched, so the win-message New Game path (which calls
only `dealCards`) retains the prior game's history. -/
theorem dealCards_spec (d : List Card) (h1 : d.length = 52)
    (h2 : ∀ c ∈ d, c.faceUp = false) :
    (∀ c, c < 7 → ((dealCardsG d).tableau.getD c []).length = c + 1) ∧
    (∀ c r card, ((dealCardsG d).tableau.getD c [])[r]? = some card →
      (card.faceUp = true ↔ r = c)) ∧
    (dealCardsG d).stock.length = 24 ∧
    (∀ card ∈ (dealCardsG d).stock, card.faceUp = false) ∧
    (dealCardsG d).waste = [] ∧
    (dealCardsG d).foundations = [[], [], [], []] ∧
    (∀ e, (confirmRestart d e).history = [] ∧ (confirmRestart d e).game = dealCardsG d) ∧
    (∀ e, (dealCardsE d e).history = e.history ∧ (dealCardsE d e).game = dealCardsG d) := by
  refine ⟨?_, ?_, ?_, ?_, rfl, rfl, fun e => ⟨rfl, rfl⟩, fun e => ⟨rfl, rfl⟩⟩
  · intro c hc
    rw [deal_tableau_getD d c hc]
    have h52 : c + 1 ≤ d.length - triIndex c := by
      rw [h1]
      interval_cases c <;> decide
    simp [dealColumn, Nat.min_eq_left h52]
  · intro c r card hcard
    by_cases hc : c < 7
    · rw [deal_tableau_getD d c hc] at hcard
      unfold dealColumn at hcard
      rw [List.getElem?_map, List.getElem?_enum] at hcard
      cases hx : ((d.drop (triIndex c)).take (c + 1))[r]? with
      | none => rw [hx] at hcard; simp at hcard
      | some a =>
          rw [hx] at hcard
          simp only [Option.map_some'] at hcard
          injection hcard with hcard
          rw [← hcard]
          simp
    · have : (dealCardsG d).tableau.getD c [] = [] := by
        apply List.getD_eq_default
        simp [dealCardsG]
        omega
      rw [this] at hcard
      simp at hcard
  · simp [dealCardsG, h1]
  · intro card hmem
    exact h2 card (List.mem_of_mem_drop hmem)

/-- A witness run of `dealCards_spec` on the unshuffled 52-card deck. -/
theorem dealCards_spec_witness :
    ((dealCardsG orderedDeck).tableau.getD 6 []).length = 7 ∧
    (dealCardsG orderedDeck).stock.length = 24 ∧
    (∀ e, (confirmRestart orderedDeck e).history = []) := by
  have h := dealCards_spec orderedDeck (by decide) (by decide)
  exact ⟨h.1 6 (by decide), h.2.2.1, fun e => (h.2.2.2.2.2.2.1 e).1⟩

/-- An engine holding one history snapshot, as after a recorded move;
the position a win-screen New Game click starts from. -/
def preEngine : Engine :=
  { game := dealCardsG orderedDeck, history := [dealCardsG orderedDeck],
    selected := none, dragged := none }

/-- Counterexample to claim C9 as stated: the win-message New Game
button calls only `dealCards`, which leaves the non-empty undo history
in place instead of clearing it. -/
theorem dealCards_keeps_history :
    (dealCardsE orderedDeck preEngine).history = [dealCardsG orderedDeck] ∧
    (dealCardsE orderedDeck preEngine).history ≠ [] := by
  exact ⟨rfl, by simp [dealCardsE, preEngine]⟩

/-! ## Conservation of the 52 cards (claim C1) -/

/-- How many cards of the given suit and rank a list holds. -/
def cardCount (l : List Card) (su : Suit) (r : Nat) : Nat :=
  (l.filter (fun c => c.suit = su && c.rank = r)).length

/-- How many cards of the given suit and rank the whole GameState holds
across stock, waste, foundations and tableau. -/
def stateCount (g : GameState) (su : Suit) (r : Nat) : Nat :=
  cardCount g.stock su r + cardCount g.waste su r +
    cardCount g.foundations.flatten su r + cardCount g.tableau.flatten su r

/-- All 52 (suit, rank) pairs. -/
def allPairs : List (Suit × Nat) :=
  (([Suit.hearts, Suit.diamonds, Suit.clubs, Suit.spades].map
    (fun s => (List.range 13).map (fun r => (s, r + 1))))).flatten

/-- A 52-card list holding each (suit, rank) pair exactly once. -/
def deckOk (l : List Card) : Bool :=
  (allPairs.all (fun p => cardCount l p.1 p.2 = 1)) && l.length = 52

/-- A legal shuffled deck (a permutation of the 52 cards): the two of
spades is dealt as the single face-up card of tableau column 0, and the
stock is ordered so the first two draws produce the ace of spades and
then the ace of hearts. -/
def concreteDeck : List Card :=
  mkCard Suit.spades 2 false ::
    (orderedDeck.filter (fun c =>
      !((c.suit = Suit.spades && (c.rank = 1 || c.rank = 2)) ||
        (c.suit = Suit.hearts && c.rank = 1))))
    ++ [mkCard Suit.hearts 1 false, mkCard Suit.spades 1 false]

/-- The engine right after dealing `concreteDeck`. -/
def startEngine : Engine :=
  { game := dealCardsG concreteDeck, history := [], selected := none, dragged := none }

/-- Draw the ace of spades from the stock. -/
def runE1 : Engine := handleStockClick startEngine

/-- Double-click the waste's ace of spades: auto-move to foundation 0. -/
def runE2 : Engine := handleDoubleClick (mkCard Suit.spades 1 true) Pile.waste none runE1

/-- Draw the ace of hearts from the stock. -/
def runE3 : Engine := handleStockClick runE2

/-- Click the waste's ace of hearts: select it. -/
def runE4 : Engine := handleCardClick (mkCard Suit.hearts 1 true) Pile.waste none runE3

/-- Click the two of spades on tableau column 0: the rule engine
accepts (red ace onto black two) and the ace of hearts moves onto the
column. -/
def runE5 : Engine :=
  handleCardClick (mkCard Suit.spades 2 true) (Pile.tableau 0) (some 0) runE4

/-- Double-click the now-covered two of spades: `canPlaceOnFoundation`
accepts it for foundation 0, and `moveCard` removes the column's last
card (the ace of hearts) while appending the two of spades. -/
def runE6 : Engine :=
  handleDoubleClick (mkCard Suit.spades 2 true) (Pile.tableau 0) (some 0) runE5

/-- Claim C1 fails on the code: `concreteDeck` is a legal 52-card deck,
the freshly dealt state holds one two of spades and one ace of hearts,
yet after the five legitimate user intents of `runE1`–`runE6`
(two stock draws, an auto-move of an ace, a validated placement of the
ace of hearts onto the two of spades, and a double-click auto-move of
the covered two of spades) the reachable state holds the two of spades
twice and the ace of hearts not at all — a card is duplicated and a
card is lost. -/
theorem card_conservation_violated :
    deckOk concreteDeck = true ∧
    stateCount startEngine.game Suit.spades 2 = 1 ∧
    stateCount startEngine.game Suit.hearts 1 = 1 ∧
    stateCount runE6.game Suit.spades 2 = 2 ∧
    stateCount runE6.game Suit.hearts 1 = 0 := by
  refine ⟨?_, ?_, ?_, ?_, ?_⟩ <;> decide
